import Mathlib

/-!
Verification of the FinalProjDS210 municipality-clustering program
(src/finalproject/src/main.rs).

Shallow embedding conventions:
* Rust `f64` weights are modelled as `ℚ` (the claims checked here involve
  only copying, equality and exact arithmetic of weights).
* `HashMap<i32, (i32, f64)>` is modelled as an association list
  `List (Int × Int × ℚ)` (no duplicate keys in a well-formed map; lookup
  takes the first matching entry).  Equality of two maps is map equality:
  lookups agree on every key, independent of entry order — this embeds
  Rust's `HashMap: PartialEq`.
* The two Rust record structs `EducationData` and `PopGrowthData` have the
  same shape and the same `GraphData` impl, so a single `Record` structure
  embeds both.
-/

structure Record where
  municipality : String
  data : List (Int × Int × ℚ)
deriving DecidableEq, Repr

def Record.get_weight (r : Record) (category : Int) : Option ℚ :=
  (r.data.find? (fun e => decide (e.1 = category))).map (fun e => e.2.2)

def extract_features (r : Record) : List ℚ :=
  (List.range 10).map (fun i : Nat => (r.get_weight ((i : Int) + 1)).getD 0)

def mapLookup (m : List (Int × Int × ℚ)) (key : Int) : Option (Int × ℚ) :=
  (m.find? (fun e => decide (e.1 = key))).map (fun e => e.2)

def mapEq (m1 m2 : List (Int × Int × ℚ)) : Bool :=
  (m1.map (fun e => e.1) ++ m2.map (fun e => e.1)).all
    (fun k => decide (mapLookup m1 k = mapLookup m2 k))

def recEq (r1 r2 : Record) : Bool :=
  decide (r1.municipality = r2.municipality) && mapEq r1.data r2.data

def filter_common_municipalities (d1 d2 : List Record) :
    List (String × Record × Record) :=
  match d1 with
  | [] => []
  | e1 :: rest =>
    match d2.find? (fun e => recEq e e1) with
    | some e2 => (e1.municipality, e1, e2) :: filter_common_municipalities rest d2
    | none => filter_common_municipalities rest d2

def rA : Record := ⟨"A", [(1, 2, 3)]⟩

def sqDist (a b : List ℚ) : ℚ :=
  ((a.zip b).map (fun xy => (xy.1 - xy.2) * (xy.1 - xy.2))).sum

def nearestAux (p : List ℚ) : List (List ℚ) → Nat → Nat → ℚ → Nat
  | [], _, besti, _ => besti
  | c :: cs, i, besti, bestd =>
    if sqDist p c < bestd then nearestAux p cs (i + 1) i (sqDist p c)
    else nearestAux p cs (i + 1) besti bestd

def nearestCentroid (cs : List (List ℚ)) (p : List ℚ) : Nat :=
  match cs with
  | [] => 0
  | c :: rest => nearestAux p rest 1 0 (sqDist p c)

def assignAll (cs : List (List ℚ)) (ps : List (List ℚ)) : List Nat :=
  ps.map (nearestCentroid cs)

def vecSum (vs : List (List ℚ)) : List ℚ :=
  vs.foldl (fun acc v => acc.zipWith (· + ·) v) (List.replicate 10 0)

def meanVec (vs : List (List ℚ)) : List ℚ :=
  (vecSum vs).map (fun x => x / (vs.length : ℚ))

def updateCentroids (cs : List (List ℚ)) (ps : List (List ℚ))
    (a : List Nat) : List (List ℚ) :=
  cs.enum.map (fun jc =>
    let members := (ps.zip a).filterMap
      (fun pa => if pa.2 = jc.1 then some pa.1 else none)
    if members.isEmpty then jc.2 else meanVec members)

def kmeansLoop (ps : List (List ℚ)) : Nat → List (List ℚ) → List Nat → List Nat
  | 0, _, a => a
  | fuel + 1, cs, a =>
    let a2 := assignAll (updateCentroids cs ps a) ps
    if a2 = a then a else kmeansLoop ps fuel (updateCentroids cs ps a) a2

def maxIterationCount : Nat := 100

def initCentroids (seed k : Nat) (ps : List (List ℚ)) : List (List ℚ) :=
  (List.range k).map (fun i => ps.getD ((seed + i) % ps.length) (List.replicate 10 0))

inductive KMeansError where
  | invalidClusterCount
deriving DecidableEq, Repr

deriving instance DecidableEq for Except

def fit (seed k : Nat) (ps : List (List ℚ)) : Except KMeansError (List Nat) :=
  if ps.isEmpty then .ok []
  else if k = 0 ∨ ps.length < k then .error .invalidClusterCount
  else
    .ok (kmeansLoop ps maxIterationCount (initCentroids seed k ps)
      (assignAll (initCentroids seed k ps) ps))

abbrev ClusterMap := List (Nat × List String)

def mapPush (m : ClusterMap) (key : Nat) (v : String) : ClusterMap :=
  match m with
  | [] => [(key, [v])]
  | kv :: rest =>
    if kv.1 = key then (kv.1, kv.2 ++ [v]) :: rest
    else kv :: mapPush rest key v

def buildClusters (names : List String) (clusters : List Nat) : ClusterMap :=
  (clusters.zip names).foldl (fun m cn => mapPush m cn.1 cn.2) []

def k_means_clustering (data : List Record) (k : Nat) :
    Except KMeansError ClusterMap :=
  (fit 0 k (data.map extract_features)).map
    (fun clusters => buildClusters (data.map Record.municipality) clusters)

def mapValuesFlatten (m : ClusterMap) : List String :=
  (m.map Prod.snd).flatten

def mapKeys (m : ClusterMap) : List Nat :=
  m.map Prod.fst

def rB : Record := ⟨"B", []⟩

def rC : Record := ⟨"C", []⟩

def zVec : List ℚ := List.replicate 10 0

structure Graph where
  nodes : List String
  edges : List (Nat × Nat × ℚ)
deriving DecidableEq, Repr

def dotProduct (a b : List ℚ) : ℚ :=
  ((a.zip b).map (fun xy => xy.1 * xy.2)).sum

def simWeight (data : List Record) (i j : Nat) : ℚ :=
  dotProduct ((data.map extract_features).getD i [])
    ((data.map extract_features).getD j [])

def create_graph (data : List Record) : Graph :=
  { nodes := data.map Record.municipality
    edges :=
      ((List.range data.length).map (fun i =>
        (List.range data.length).filterMap (fun j =>
          if i ≠ j ∧ simWeight data i j ≠ 0 then some (i, j, simWeight data i j)
          else none))).flatten }

structure DotEdge where
  src : Nat
  dst : Nat
  label : Option String
deriving DecidableEq, Repr

def visualize_graph (g : Graph) : List DotEdge :=
  g.edges.map (fun e => { src := e.1, dst := e.2.1, label := none })

def rX : Record := ⟨"X", [(1, 1, 1)]⟩

theorem mapLookup_eq_none_of_not_key {m : List (Int × Int × ℚ)} {k : Int}
    (h : k ∉ m.map (fun e => e.1)) : mapLookup m k = none := by
  unfold mapLookup
  rw [List.find?_eq_none.mpr]
  · rfl
  · intro x hx hk
    exact h (List.mem_map.mpr ⟨x, hx, by simpa using hk⟩)

theorem mapEq_iff {m1 m2 : List (Int × Int × ℚ)} :
    mapEq m1 m2 = true ↔ ∀ k, mapLookup m1 k = mapLookup m2 k := by
  constructor
  · intro h k
    by_cases hk : k ∈ m1.map (fun e => e.1) ++ m2.map (fun e => e.1)
    · have := List.all_eq_true.mp h k hk
      simpa using this
    · rw [List.mem_append] at hk
      push_neg at hk
      rw [mapLookup_eq_none_of_not_key hk.1, mapLookup_eq_none_of_not_key hk.2]
  · intro h
    apply List.all_eq_true.mpr
    intro k _
    simpa using h k

theorem mapEq_symm {m1 m2 : List (Int × Int × ℚ)}
    (h : mapEq m1 m2 = true) : mapEq m2 m1 = true :=
  mapEq_iff.mpr (fun k => (mapEq_iff.mp h k).symm)

theorem get_weight_eq_of_mapEq {r1 r2 : Record}
    (h : mapEq r1.data r2.data = true) (c : Int) :
    r1.get_weight c = r2.get_weight c := by
  have hl := mapEq_iff.mp h c
  unfold Record.get_weight
  unfold mapLookup at hl
  cases h1 : r1.data.find? (fun e => decide (e.1 = c)) with
  | none =>
    rw [h1] at hl
    cases h2 : r2.data.find? (fun e => decide (e.1 = c)) with
    | none => rfl
    | some v =>
      rw [h2, Option.map_none', Option.map_some'] at hl
      exact Option.noConfusion hl
  | some v =>
    rw [h1] at hl
    cases h2 : r2.data.find? (fun e => decide (e.1 = c)) with
    | none =>
      rw [h2, Option.map_none', Option.map_some'] at hl
      exact Option.noConfusion hl
    | some w =>
      rw [h2, Option.map_some', Option.map_some'] at hl
      have hv : v.2 = w.2 := Option.some.inj hl
      simp only [Option.map_some']
      rw [show v.2.2 = w.2.2 from congrArg Prod.snd hv]

theorem recEq_symm {r1 r2 : Record} (h : recEq r1 r2 = true) :
    recEq r2 r1 = true := by
  unfold recEq at h ⊢
  rw [Bool.and_eq_true] at h ⊢
  exact ⟨by simp at h ⊢; exact h.1.symm, mapEq_symm h.2⟩

theorem recEq_get_weight {r1 r2 : Record} (h : recEq r1 r2 = true) (c : Int) :
    r1.get_weight c = r2.get_weight c := by
  unfold recEq at h
  rw [Bool.and_eq_true] at h
  exact get_weight_eq_of_mapEq h.2 c

theorem extract_features_length_and_entries (r : Record) (i : Nat)
    (h : i < 10) :
    (extract_features r).length = 10 ∧
      (extract_features r).getD i 0 = (r.get_weight ((i : Int) + 1)).getD 0 := by
  constructor
  · simp [extract_features]
  · unfold extract_features
    rw [List.getD_eq_getElem?_getD, List.getElem?_map, List.getElem?_range h]
    rfl

theorem extract_features_length_and_entries_witness :
    (3 < 10) ∧
      ((extract_features ⟨"A", [(4, 7, (5 : ℚ))]⟩).length = 10 ∧
        (extract_features ⟨"A", [(4, 7, (5 : ℚ))]⟩).getD 3 0 =
          ((Record.get_weight ⟨"A", [(4, 7, (5 : ℚ))]⟩ ((3 : Int) + 1)).getD 0)) :=
  ⟨by decide,
    extract_features_length_and_entries ⟨"A", [(4, 7, (5 : ℚ))]⟩ 3 (by decide)⟩

theorem extract_features_congr (r1 r2 : Record)
    (h : ∀ c : Int, 1 ≤ c → c ≤ 10 → r1.get_weight c = r2.get_weight c) :
    extract_features r1 = extract_features r2 := by
  unfold extract_features
  apply List.map_congr_left
  intro a ha
  rw [List.mem_range] at ha
  exact congrArg (fun o => Option.getD o 0) (h ((a : Int) + 1) (by omega) (by omega))

theorem extract_features_congr_witness :
    extract_features ⟨"A", [(0, 1, (9 : ℚ))]⟩ =
      extract_features ⟨"B", [(11, 2, (7 : ℚ))]⟩ :=
  extract_features_congr ⟨"A", [(0, 1, (9 : ℚ))]⟩ ⟨"B", [(11, 2, (7 : ℚ))]⟩
    (by decide)

theorem fcm_eq_filterMap (d1 d2 : List Record) :
    filter_common_municipalities d1 d2 =
      d1.filterMap (fun e1 =>
        (d2.find? (fun e => recEq e e1)).map
          (fun e2 => (e1.municipality, e1, e2))) := by
  induction d1 with
  | nil => rfl
  | cons e1 rest ih =>
    rw [List.filterMap_cons]
    unfold filter_common_municipalities
    cases h : d2.find? (fun e => recEq e e1) with
    | none => rw [Option.map_none']; exact ih
    | some e2 => rw [Option.map_some']; exact congrArg _ ih

theorem mem_fcm {d1 d2 : List Record} {p : String × Record × Record}
    (hp : p ∈ filter_common_municipalities d1 d2) :
    p.2.1 ∈ d1 ∧ p.2.2 ∈ d2 ∧ recEq p.2.2 p.2.1 = true ∧
      p.1 = p.2.1.municipality := by
  rw [fcm_eq_filterMap, List.mem_filterMap] at hp
  obtain ⟨e1, he1, hf⟩ := hp
  cases hfind : d2.find? (fun e => recEq e e1) with
  | none => rw [hfind, Option.map_none'] at hf; exact Option.noConfusion hf
  | some e2 =>
    rw [hfind, Option.map_some'] at hf
    have hp2 := (Option.some.inj hf).symm
    subst hp2
    refine ⟨he1, List.mem_of_find?_eq_some hfind, ?_, rfl⟩
    have h3 := List.find?_some hfind
    simpa using h3

theorem fcm_is_ordered_first_match (d1 d2 : List Record) :
    filter_common_municipalities d1 d2 =
      d1.filterMap (fun e1 =>
        (d2.find? (fun e => recEq e e1)).map
          (fun e2 => (e1.municipality, e1, e2))) :=
  fcm_eq_filterMap d1 d2

theorem fcm_pairs_equal {d1 d2 : List Record} {p : String × Record × Record}
    (hp : p ∈ filter_common_municipalities d1 d2) :
    recEq p.2.1 p.2.2 = true ∧ p.1 = p.2.1.municipality := by
  obtain ⟨_, _, heq, hname⟩ := mem_fcm hp
  exact ⟨recEq_symm heq, hname⟩

theorem fcm_pairs_equal_witness :
    (("A", rA, rA) ∈ filter_common_municipalities [rA] [rA]) ∧
      (recEq rA rA = true ∧ ("A" : String) = rA.municipality) :=
  ⟨by decide, @fcm_pairs_equal [rA] [rA] ("A", rA, rA) (by decide)⟩

theorem fcm_structural (d1 d2 : List Record) (r1 r2 : Record)
    (h1 : r1 ∈ d1) (h2 : r2 ∈ d2)
    (hname : r1.municipality = r2.municipality) :
    ((∃ c, r1.get_weight c ≠ r2.get_weight c) →
      ∀ s, (s, r1, r2) ∉ filter_common_municipalities d1 d2) ∧
    (mapEq r1.data r2.data = true →
      ∃ p ∈ filter_common_municipalities d1 d2,
        p.1 = r1.municipality ∧ p.2.1 = r1) := by
  constructor
  · rintro ⟨c, hc⟩ s hmem
    obtain ⟨heq, _⟩ := fcm_pairs_equal hmem
    exact hc (recEq_get_weight heq c)
  · intro hmap
    have hr : recEq r2 r1 = true := by
      apply recEq_symm
      unfold recEq
      rw [Bool.and_eq_true]
      exact ⟨by simpa using hname, hmap⟩
    have hfind : (d2.find? (fun e => recEq e r1)).isSome := by
      rw [Option.isSome_iff_exists]
      cases hf : d2.find? (fun e => recEq e r1) with
      | none => exact absurd hr (List.find?_eq_none.mp hf r2 h2)
      | some e2 => exact ⟨e2, rfl⟩
    obtain ⟨e2, he2⟩ := Option.isSome_iff_exists.mp hfind
    refine ⟨(r1.municipality, r1, e2), ?_, rfl, rfl⟩
    rw [fcm_eq_filterMap, List.mem_filterMap]
    exact ⟨r1, h1, by rw [he2, Option.map_some']⟩

theorem fcm_structural_witness :
    (rA ∈ [rA]) ∧
      (((∃ c, rA.get_weight c ≠ rA.get_weight c) →
          ∀ s, (s, rA, rA) ∉ filter_common_municipalities [rA] [rA]) ∧
        (mapEq rA.data rA.data = true →
          ∃ p ∈ filter_common_municipalities [rA] [rA],
            p.1 = rA.municipality ∧ p.2.1 = rA)) :=
  ⟨by decide, fcm_structural [rA] [rA] rA rA (by decide) (by decide) rfl⟩

theorem nearestAux_lt (p : List ℚ) (cs : List (List ℚ)) :
    ∀ (i besti : Nat) (bestd : ℚ), besti < i →
      nearestAux p cs i besti bestd < i + cs.length := by
  induction cs with
  | nil => intro i besti bestd h; simpa [nearestAux] using h
  | cons c rest ih =>
    intro i besti bestd h
    unfold nearestAux
    by_cases hd : sqDist p c < bestd
    · rw [if_pos hd]
      have := ih (i + 1) i (sqDist p c) (by omega)
      simpa [Nat.add_comm, Nat.add_assoc, Nat.add_left_comm] using this
    · rw [if_neg hd]
      have := ih (i + 1) besti bestd (by omega)
      simpa [Nat.add_comm, Nat.add_assoc, Nat.add_left_comm] using this

theorem nearestCentroid_lt {cs : List (List ℚ)} (h : cs ≠ []) (p : List ℚ) :
    nearestCentroid cs p < cs.length := by
  cases cs with
  | nil => exact absurd rfl h
  | cons c rest =>
    unfold nearestCentroid
    have := nearestAux_lt p rest 1 0 (sqDist p c) (by omega)
    simpa [Nat.add_comm] using this

theorem length_assignAll (cs ps : List (List ℚ)) :
    (assignAll cs ps).length = ps.length := by
  simp [assignAll]

theorem assignAll_lt {cs : List (List ℚ)} (h : cs ≠ []) (ps : List (List ℚ)) :
    ∀ x ∈ assignAll cs ps, x < cs.length := by
  intro x hx
  rw [assignAll, List.mem_map] at hx
  obtain ⟨p, _, hp⟩ := hx
  rw [← hp]
  exact nearestCentroid_lt h p

theorem length_updateCentroids (cs ps : List (List ℚ)) (a : List Nat) :
    (updateCentroids cs ps a).length = cs.length := by
  simp [updateCentroids, List.enum_length]

theorem kmeansLoop_invariant (ps : List (List ℚ)) (k : Nat) (hk : 0 < k) :
    ∀ (fuel : Nat) (cs : List (List ℚ)) (a : List Nat),
      cs.length = k → a.length = ps.length → (∀ x ∈ a, x < k) →
      (kmeansLoop ps fuel cs a).length = ps.length ∧
        ∀ x ∈ kmeansLoop ps fuel cs a, x < k := by
  intro fuel
  induction fuel with
  | zero => intro cs a _ ha hb; exact ⟨ha, hb⟩
  | succ fuel ih =>
    intro cs a hcs ha hb
    unfold kmeansLoop
    by_cases hstop : assignAll (updateCentroids cs ps a) ps = a
    · rw [if_pos hstop]
      exact ⟨ha, hb⟩
    · rw [if_neg hstop]
      have hcs2 : (updateCentroids cs ps a).length = k := by
        rw [length_updateCentroids]; exact hcs
      have hne : updateCentroids cs ps a ≠ [] := by
        intro hnil
        rw [hnil] at hcs2
        simp at hcs2
        omega
      exact ih (updateCentroids cs ps a)
        (assignAll (updateCentroids cs ps a) ps)
        hcs2 (length_assignAll _ _)
        (fun x hx => hcs2 ▸ assignAll_lt hne ps x hx)

theorem length_initCentroids (seed k : Nat) (ps : List (List ℚ)) :
    (initCentroids seed k ps).length = k := by
  simp [initCentroids]

theorem fit_ok_spec (seed k : Nat) (ps : List (List ℚ))
    (hne : ps ≠ []) (hk : 0 < k) (hkn : k ≤ ps.length) :
    ∃ a, fit seed k ps = .ok a ∧ a.length = ps.length ∧ ∀ x ∈ a, x < k := by
  unfold fit
  rw [if_neg (by simpa [List.isEmpty_iff] using hne),
    if_neg (by push_neg; omega)]
  refine ⟨_, rfl, ?_⟩
  have hcs : (initCentroids seed k ps).length = k := length_initCentroids seed k ps
  have hne2 : initCentroids seed k ps ≠ [] := by
    intro hnil
    rw [hnil] at hcs
    simp at hcs
    omega
  exact kmeansLoop_invariant ps k hk maxIterationCount (initCentroids seed k ps)
    (assignAll (initCentroids seed k ps) ps)
    hcs (length_assignAll _ _)
    (fun x hx => hcs ▸ assignAll_lt hne2 ps x hx)

theorem mapPush_flatten_perm (m : ClusterMap) (key : Nat) (v : String) :
    (mapValuesFlatten (mapPush m key v)).Perm (v :: mapValuesFlatten m) := by
  induction m with
  | nil => simp [mapPush, mapValuesFlatten]
  | cons kv rest ih =>
    unfold mapPush
    by_cases hkey : kv.1 = key
    · rw [if_pos hkey]
      simp only [mapValuesFlatten, List.map_cons, List.flatten_cons]
      have h1 : (kv.2 ++ [v]) ++ (rest.map Prod.snd).flatten
          = kv.2 ++ v :: (rest.map Prod.snd).flatten := by
        rw [List.append_assoc]; rfl
      rw [h1]
      exact List.perm_middle
    · rw [if_neg hkey]
      simp only [mapValuesFlatten, List.map_cons, List.flatten_cons]
      have h2 := List.Perm.append_left kv.2 ih
      exact h2.trans List.perm_middle

theorem foldl_mapPush_flatten_perm (pairs : List (Nat × String)) :
    ∀ m : ClusterMap,
      (mapValuesFlatten (pairs.foldl (fun m cn => mapPush m cn.1 cn.2) m)).Perm
        (pairs.map Prod.snd ++ mapValuesFlatten m) := by
  induction pairs with
  | nil => intro m; simp
  | cons cn rest ih =>
    intro m
    rw [List.foldl_cons, List.map_cons]
    have h1 := ih (mapPush m cn.1 cn.2)
    have h2 : (rest.map Prod.snd ++ mapValuesFlatten (mapPush m cn.1 cn.2)).Perm
        (rest.map Prod.snd ++ (cn.2 :: mapValuesFlatten m)) :=
      List.Perm.append_left _ (mapPush_flatten_perm m cn.1 cn.2)
    refine (h1.trans h2).trans ?_
    exact List.perm_middle.trans (List.Perm.cons _ (List.perm_append_comm.symm.trans List.perm_append_comm))

theorem buildClusters_flatten_perm (names : List String) (clusters : List Nat)
    (hlen : names.length ≤ clusters.length) :
    (mapValuesFlatten (buildClusters names clusters)).Perm names := by
  unfold buildClusters
  have h := foldl_mapPush_flatten_perm (clusters.zip names) []
  rw [List.map_snd_zip clusters names hlen] at h
  simpa [mapValuesFlatten] using h

theorem mem_mapPush {m : ClusterMap} {key : Nat} {v : String} {P : Nat → Prop}
    (hm : ∀ kv ∈ m, P kv.1 ∧ kv.2 ≠ []) (hkey : P key) :
    ∀ kv ∈ mapPush m key v, P kv.1 ∧ kv.2 ≠ [] := by
  induction m with
  | nil =>
    intro kv hkv
    simp only [mapPush, List.mem_singleton] at hkv
    subst hkv
    exact ⟨hkey, by simp⟩
  | cons kv0 rest ih =>
    intro kv hkv
    unfold mapPush at hkv
    by_cases h0 : kv0.1 = key
    · rw [if_pos h0] at hkv
      rcases List.mem_cons.mp hkv with h | h
      · subst h
        refine ⟨hm kv0 (List.mem_cons_self _ _) |>.1, by simp⟩
      · exact hm kv (List.mem_cons_of_mem _ h)
    · rw [if_neg h0] at hkv
      rcases List.mem_cons.mp hkv with h | h
      · subst h
        exact hm kv (List.mem_cons_self _ _)
      · exact ih (fun x hx => hm x (List.mem_cons_of_mem _ hx)) kv h

theorem mem_foldl_mapPush {P : Nat → Prop} (pairs : List (Nat × String))
    (hp : ∀ cn ∈ pairs, P cn.1) :
    ∀ m : ClusterMap, (∀ kv ∈ m, P kv.1 ∧ kv.2 ≠ []) →
      ∀ kv ∈ pairs.foldl (fun m cn => mapPush m cn.1 cn.2) m,
        P kv.1 ∧ kv.2 ≠ [] := by
  induction pairs with
  | nil => intro m hm kv hkv; exact hm kv hkv
  | cons cn rest ih =>
    intro m hm kv hkv
    rw [List.foldl_cons] at hkv
    exact ih (fun x hx => hp x (List.mem_cons_of_mem _ hx))
      (mapPush m cn.1 cn.2)
      (mem_mapPush hm (hp cn (List.mem_cons_self _ _)))
      kv hkv

theorem mem_buildClusters {names : List String} {clusters : List Nat} {k : Nat}
    (hc : ∀ x ∈ clusters, x < k) :
    ∀ kv ∈ buildClusters names clusters, kv.1 < k ∧ kv.2 ≠ [] := by
  unfold buildClusters
  refine mem_foldl_mapPush (P := fun x => x < k) (clusters.zip names) ?_ [] (by simp)
  rintro ⟨a, b⟩ hcn
  exact hc a (List.of_mem_zip hcn).1

theorem fit_ok_bound {seed k : Nat} {ps : List (List ℚ)} {a : List Nat}
    (hok : fit seed k ps = .ok a) : ∀ x ∈ a, x < k := by
  unfold fit at hok
  by_cases hemp : ps.isEmpty
  · rw [if_pos hemp] at hok
    have : a = [] := (Except.ok.inj hok).symm
    subst this
    intro x hx
    exact absurd hx (List.not_mem_nil x)
  · rw [if_neg hemp] at hok
    by_cases hbad : k = 0 ∨ ps.length < k
    · rw [if_pos hbad] at hok
      exact Except.noConfusion hok
    · rw [if_neg hbad] at hok
      push_neg at hbad
      have hk : 0 < k := Nat.pos_of_ne_zero hbad.1
      have ha := (Except.ok.inj hok).symm
      subst ha
      have hcs : (initCentroids seed k ps).length = k := length_initCentroids seed k ps
      have hne2 : initCentroids seed k ps ≠ [] := by
        intro hnil
        rw [hnil] at hcs
        simp at hcs
        omega
      exact (kmeansLoop_invariant ps k hk maxIterationCount _ _
        hcs (length_assignAll _ _)
        (fun x hx => hcs ▸ assignAll_lt hne2 ps x hx)).2

theorem k_means_partition (data : List Record) (k : Nat)
    (hvalid : data = [] ∨ (0 < k ∧ k ≤ data.length)) :
    ∃ m, k_means_clustering data k = .ok m ∧
      (mapValuesFlatten m).Perm (data.map Record.municipality) ∧
      ((data.map Record.municipality).Nodup →
        (mapValuesFlatten m).Nodup ∧
          ∀ x, x ∈ mapValuesFlatten m ↔ x ∈ data.map Record.municipality) := by
  rcases hvalid with hnil | ⟨hk, hkn⟩
  · subst hnil
    exact ⟨[], rfl, by simp [mapValuesFlatten], fun _ =>
      ⟨by simp [mapValuesFlatten], by simp [mapValuesFlatten]⟩⟩
  · have hdne : data ≠ [] := by
      intro h
      rw [h] at hkn
      simp at hkn
      omega
    have hps : (data.map extract_features) ≠ [] := by
      rw [Ne, List.map_eq_nil_iff]
      exact hdne
    have hlen : (data.map extract_features).length = data.length :=
      List.length_map data extract_features
    obtain ⟨a, hfit, halen, _⟩ :=
      fit_ok_spec 0 k (data.map extract_features) hps hk (hlen ▸ hkn)
    have hperm : (mapValuesFlatten
        (buildClusters (data.map Record.municipality) a)).Perm
          (data.map Record.municipality) := by
      apply buildClusters_flatten_perm
      rw [List.length_map, halen, hlen]
    refine ⟨buildClusters (data.map Record.municipality) a, ?_, hperm, ?_⟩
    · unfold k_means_clustering
      rw [hfit]
      rfl
    · intro hnd
      exact ⟨hperm.nodup_iff.mpr hnd, fun x => hperm.mem_iff⟩

theorem k_means_partition_witness :
    ∃ m, k_means_clustering [rB, rC] 2 = .ok m ∧
      (mapValuesFlatten m).Perm ([rB, rC].map Record.municipality) ∧
      (([rB, rC].map Record.municipality).Nodup →
        (mapValuesFlatten m).Nodup ∧
          ∀ x, x ∈ mapValuesFlatten m ↔ x ∈ [rB, rC].map Record.municipality) :=
  k_means_partition [rB, rC] 2 (Or.inr (by decide))

theorem k_means_error_reporting (data : List Record) (k : Nat) :
    (data ≠ [] → (k = 0 ∨ data.length < k) →
      k_means_clustering data k = .error .invalidClusterCount) ∧
      k_means_clustering [] k = .ok [] := by
  constructor
  · intro hne hbad
    unfold k_means_clustering fit
    rw [if_neg (by rw [List.isEmpty_iff, List.map_eq_nil_iff]; exact hne),
      if_pos (by rw [List.length_map]; exact hbad)]
    rfl
  · unfold k_means_clustering fit
    rw [if_pos (by rw [List.isEmpty_iff]; rfl)]
    rfl

theorem k_means_error_reporting_witness :
    k_means_clustering [rB] 0 = .error .invalidClusterCount ∧
      k_means_clustering [] 5 = .ok [] :=
  ⟨(k_means_error_reporting [rB] 0).1 (by decide) (Or.inl rfl),
    (k_means_error_reporting [] 5).2⟩

theorem k_means_deterministic (s1 s2 k1 k2 : Nat) (d1 d2 : List Record)
    (hs : s1 = s2) (hk : k1 = k2) (hd : d1 = d2) :
    fit s1 k1 (d1.map extract_features) = fit s2 k2 (d2.map extract_features) ∧
      k_means_clustering d1 k1 = k_means_clustering d2 k2 := by
  subst hs
  subst hk
  subst hd
  exact ⟨rfl, rfl⟩

theorem k_means_deterministic_witness :
    fit 0 2 ([rB, rC].map extract_features) =
        fit 0 2 ([rB, rC].map extract_features) ∧
      k_means_clustering [rB, rC] 2 = k_means_clustering [rB, rC] 2 :=
  k_means_deterministic 0 0 2 2 [rB, rC] [rB, rC] rfl rfl rfl

theorem sqDist_self (p : List ℚ) : sqDist p p = 0 := by
  induction p with
  | nil => rfl
  | cons x xs ih =>
    unfold sqDist at ih ⊢
    rw [List.zip_cons_cons, List.map_cons, List.sum_cons, ih, sub_self,
      mul_zero, zero_add]

theorem nearest_two_same (c : List ℚ) : nearestCentroid [c, c] c = 0 := by
  unfold nearestCentroid nearestAux
  rw [sqDist_self, if_neg (lt_irrefl 0)]
  rfl

theorem assignAll_two_same (c : List ℚ) : assignAll [c, c] [c, c] = [0, 0] := by
  unfold assignAll
  rw [List.map_cons, List.map_cons, List.map_nil, nearest_two_same]

theorem zipWith_add_zero (n : Nat) :
    List.zipWith (· + ·) (List.replicate n (0 : ℚ)) (List.replicate n (0 : ℚ)) =
      List.replicate n 0 := by
  induction n with
  | zero => rfl
  | succ n ih => rw [List.replicate_succ, List.zipWith_cons_cons, ih, zero_add]

theorem vecSum_zz : vecSum [zVec, zVec] = zVec := by
  unfold vecSum zVec
  rw [List.foldl_cons, List.foldl_cons, List.foldl_nil,
    zipWith_add_zero, zipWith_add_zero]

theorem meanVec_zz : meanVec [zVec, zVec] = zVec := by
  unfold meanVec
  rw [vecSum_zz]
  unfold zVec
  rw [List.map_replicate, zero_div]

theorem updateCentroids_zz :
    updateCentroids [zVec, zVec] [zVec, zVec] [0, 0] = [zVec, zVec] := by
  unfold updateCentroids
  simp only [List.enum]
  norm_num [List.enumFrom, List.zip_cons_cons, List.zip_nil_right,
    List.filterMap_cons, List.filterMap_nil, meanVec_zz]

theorem kmeansLoop_stable (ps cs : List (List ℚ)) (a : List Nat) (fuel : Nat)
    (h : assignAll (updateCentroids cs ps a) ps = a) :
    kmeansLoop ps (fuel + 1) cs a = a := by
  unfold kmeansLoop
  rw [if_pos h]

theorem kmc_eval : k_means_clustering [rB, rC] 2 = .ok [(0, ["B", "C"])] := by
  unfold k_means_clustering
  have hfeat : [rB, rC].map extract_features = [zVec, zVec] := by decide
  have hinit : initCentroids 0 2 [zVec, zVec] = [zVec, zVec] := by decide
  rw [hfeat]
  unfold fit
  rw [if_neg (by decide), if_neg (by decide), hinit,
    assignAll_two_same,
    show maxIterationCount = 99 + 1 from rfl,
    kmeansLoop_stable _ _ _ _ (by rw [updateCentroids_zz, assignAll_two_same])]
  decide

theorem k_means_missing_key_cex :
    (k_means_clustering [rB, rC] 2).map mapKeys = Except.ok [0] ∧
      (1 : Nat) < 2 ∧ (1 : Nat) ∉ ([0] : List Nat) :=
  ⟨by rw [kmc_eval]; decide, by decide, by decide⟩

theorem k_means_keys_sound (data : List Record) (k : Nat) (m : ClusterMap)
    (hok : k_means_clustering data k = .ok m) :
    ∀ kv ∈ m, kv.1 < k ∧ kv.2 ≠ [] := by
  unfold k_means_clustering at hok
  cases hfit : fit 0 k (data.map extract_features) with
  | error e => rw [hfit] at hok; exact Except.noConfusion hok
  | ok a =>
    rw [hfit] at hok
    have hm : buildClusters (data.map Record.municipality) a = m :=
      Except.ok.inj hok
    subst hm
    exact mem_buildClusters (fit_ok_bound hfit)

theorem k_means_keys_sound_witness :
    ((0 : Nat), ["B", "C"]) ∈ ([(0, ["B", "C"])] : ClusterMap) ∧
      ((0 : Nat) < 2 ∧ (["B", "C"] : List String) ≠ []) :=
  ⟨by decide,
    k_means_keys_sound [rB, rC] 2 [(0, ["B", "C"])] kmc_eval (0, ["B", "C"])
      (by decide)⟩

theorem graph_no_self_loop_no_label (data : List Record) :
    (∀ e ∈ (create_graph data).edges, e.1 ≠ e.2.1) ∧
      (∀ de ∈ visualize_graph (create_graph data), de.label = none) := by
  constructor
  · intro e he
    simp only [create_graph, List.mem_flatten, List.mem_map] at he
    obtain ⟨l, ⟨i, _, hl⟩, hel⟩ := he
    rw [← hl, List.mem_filterMap] at hel
    obtain ⟨j, _, hj⟩ := hel
    by_cases hcond : i ≠ j ∧ simWeight data i j ≠ 0
    · rw [if_pos hcond] at hj
      rw [← Option.some.inj hj]
      exact hcond.1
    · rw [if_neg hcond] at hj
      exact Option.noConfusion hj
  · intro de hde
    rw [visualize_graph, List.mem_map] at hde
    obtain ⟨e, _, hee⟩ := hde
    rw [← hee]

theorem dotProduct_zero_replicate (n : Nat) :
    dotProduct (List.replicate n (0 : ℚ)) (List.replicate n (0 : ℚ)) = 0 := by
  induction n with
  | zero => rfl
  | succ n ih =>
    unfold dotProduct at ih ⊢
    rw [List.replicate_succ, List.zip_cons_cons, List.map_cons, List.sum_cons,
      ih, mul_zero, zero_add]

theorem extract_features_rX :
    extract_features rX = 1 :: List.replicate 9 0 := by decide

theorem simWeight_rX : simWeight [rX, rX] 0 1 = 1 := by
  unfold simWeight
  rw [List.map_cons, List.map_cons, List.map_nil, extract_features_rX]
  show dotProduct (1 :: List.replicate 9 0) (1 :: List.replicate 9 0) = 1
  unfold dotProduct
  rw [List.zip_cons_cons, List.map_cons, List.sum_cons]
  have h0 := dotProduct_zero_replicate 9
  unfold dotProduct at h0
  rw [h0, one_mul, add_zero]

theorem graph_witness_mem :
    ((0 : Nat), (1 : Nat), (1 : ℚ)) ∈ (create_graph [rX, rX]).edges := by
  unfold create_graph
  simp only [List.mem_flatten, List.mem_map]
  refine ⟨(List.range [rX, rX].length).filterMap (fun j =>
    if 0 ≠ j ∧ simWeight [rX, rX] 0 j ≠ 0
    then some (0, j, simWeight [rX, rX] 0 j) else none),
    ⟨0, by decide, rfl⟩, ?_⟩
  rw [List.mem_filterMap]
  refine ⟨1, by decide, ?_⟩
  rw [if_pos ⟨by decide, by rw [simWeight_rX]; norm_num⟩, simWeight_rX]

theorem graph_no_self_loop_no_label_witness :
    (((0 : Nat), (1 : Nat), (1 : ℚ)) ∈ (create_graph [rX, rX]).edges ∧
        ((0 : Nat), (1 : Nat), (1 : ℚ)).1 ≠ ((0 : Nat), (1 : Nat), (1 : ℚ)).2.1) ∧
      ((⟨0, 1, none⟩ : DotEdge) ∈ visualize_graph (create_graph [rX, rX]) ∧
        (⟨0, 1, none⟩ : DotEdge).label = none) :=
  ⟨⟨graph_witness_mem,
      (graph_no_self_loop_no_label [rX, rX]).1 _ graph_witness_mem⟩,
    ⟨List.mem_map_of_mem _ graph_witness_mem,
      (graph_no_self_loop_no_label [rX, rX]).2 _
        (List.mem_map_of_mem _ graph_witness_mem)⟩⟩
